import Mathlib

/-!
Shallow embedding of the Ludo server rule engine and session state machine
from src/server.mjs (the authoritative source file; the claims cite its
line numbers).  Pure functions of the source become Lean functions; the
mutable room object becomes an explicit `Room` value threaded through the
operations; the random die roll becomes an explicit parameter; outbound
websocket messages become an explicit `Msg` list returned alongside the
new state.  JavaScript`s number-or-null fields become `Option Nat`
(JavaScript coerces `null` to `0` in additions, which we mirror with
`Option.getD 0` at the two places the source adds `room.dice`).
-/

namespace Ludo

/-- The three seat colors of this 3-player build (`COLORS` in server.mjs;
the `yellow` entry of `START_IDX` is dead data there, never seated). -/
inductive Color : Type
  | red
  | green
  | blue
deriving DecidableEq, Repr, Fintype

/-- Token state tag: `"base" | "path" | "home"` in server.mjs. -/
inductive TokTag : Type
  | base
  | path
  | home
deriving DecidableEq, Repr

/-- A token record `{ t, p }` of server.mjs. -/
structure Token : Type where
  t : TokTag
  p : Nat
deriving DecidableEq, Repr

/-- Session status: `"waiting" | "playing" | "finished"`. -/
inductive Status : Type
  | waiting
  | playing
  | finished
deriving DecidableEq, Repr

/-- A seat record (connection handle and display name dropped; the id is
the opaque player identity used by the handlers). -/
structure Player : Type where
  id : Nat
  color : Color
  bot : Bool
deriving DecidableEq, Repr

/-- The room object of server.mjs.  `tokens` is the JS object mapping a
color to its 4-token array; an absent key is `none`. -/
structure Room : Type where
  status : Status
  players : List Player
  tokens : Color → Option (List Token)
  turnIdx : Nat
  dice : Option Nat
  lastRolls : Color → Option Nat

/-- `COLORS = ["red", "green", "blue"]`. -/
def COLORS : List Color := [Color.red, Color.green, Color.blue]

/-- `START_IDX` restricted to the colors actually in play. -/
def START_IDX : Color → Nat
  | Color.red => 0
  | Color.green => 13
  | Color.blue => 39

/-- `SAFE_TILES = new Set([0, 8, 13, 21, 26, 34, 39, 47])`. -/
def SAFE_TILES : List Nat := [0, 8, 13, 21, 26, 34, 39, 47]

/-- `RING_LEN = 52`. -/
def RING_LEN : Nat := 52

/-- `MAX_LANE = 57` (path positions: 0..51 on ring, 52..57 in lane,
57 == home). -/
def MAX_LANE : Nat := 57

/-- `onRingIndex(color, p) = (START_IDX[color] + p) % RING_LEN`. -/
def onRingIndex (c : Color) (p : Nat) : Nat := (START_IDX c + p) % RING_LEN

/-- Outbound message kinds distinguished by the embedding (payload
snapshots dropped; only the kind and the addressed error text matter). -/
inductive Msg : Type
  | state
  | joined
  | errorMsg (text : String)
  | finishedMsg (winner : Color)
deriving DecidableEq, Repr

/-- `newRoom(id)` (identifier and timestamp dropped). -/
def newRoom : Room :=
  { status := Status.waiting
    players := []
    tokens := fun _ => none
    turnIdx := 0
    dice := none
    lastRolls := fun _ => none }

/-- `pickColor(taken)`: first color of `COLORS` not in `taken`. -/
def pickColor (taken : List Color) : Option Color :=
  COLORS.find? (fun c => !(taken.contains c))

/-- A fresh 4-token array, all in base. -/
def freshTokens : List Token :=
  [⟨TokTag.base, 0⟩, ⟨TokTag.base, 0⟩, ⟨TokTag.base, 0⟩, ⟨TokTag.base, 0⟩]

/-- `ensureTokens(room)`: for every color with a seated player whose token
array is missing or not of length 4, install a fresh 4-token array. -/
def ensureTokens (room : Room) : Room :=
  { room with tokens := fun c =>
      if (room.players.find? (fun p => p.color = c)).isSome then
        match room.tokens c with
        | some arr => if arr.length = 4 then some arr else some freshTokens
        | none => some freshTokens
      else room.tokens c }

/-- `startGame(room)`: status playing, turn 0, die cleared, last rolls and
tokens reset, then `ensureTokens` (broadcasts dropped). -/
def startGame (room : Room) : Room :=
  ensureTokens
    { room with
        status := Status.playing
        turnIdx := 0
        dice := none
        lastRolls := fun _ => none
        tokens := fun _ => none }

/-- `nextTurn(room, {extraTurn})`: advance the turn index unless an extra
turn was earned, and clear the pending die. -/
def nextTurn (room : Room) (extraTurn : Bool) : Room :=
  { room with
      turnIdx :=
        if extraTurn then room.turnIdx
        else (room.turnIdx + 1) % room.players.length
      dice := none }

/-- `occupantsOnRing(room, ringIdx)`: every (color, token index) whose
token sits on the shared ring (state path, step < 52) at that absolute
ring cell, scanning colors in `COLORS` order. -/
def occupantsOnRing (room : Room) (ringIdx : Nat) : List (Color × Nat) :=
  COLORS.flatMap (fun c =>
    match room.tokens c with
    | none => []
    | some arr =>
        arr.enum.filterMap (fun it =>
          if it.2.t = TokTag.path ∧ it.2.p < 52 ∧ onRingIndex c it.2.p = ringIdx
          then some (c, it.1) else none))

/-- `canLeaveBase(room, color)`: the pending die is 6 and fewer than two
of this color`s own tokens already occupy its own start cell. -/
def canLeaveBase (room : Room) (color : Color) : Bool :=
  if room.dice ≠ some 6 then false
  else
    let startTile := onRingIndex color 0
    let occ := occupantsOnRing room startTile
    let same := (occ.filter (fun o => o.1 = color)).length
    same < 2

/-- One `tok.t = "base"; tok.p = 0` mutation of `captureIfAllowed`
(an out-of-range index leaves the array unchanged, as the
`if (!tok) continue` guard does). -/
def setBase (tokens : Color → Option (List Token)) (v : Color × Nat) :
    Color → Option (List Token) :=
  fun c =>
    if c = v.1 then (tokens c).map (fun arr => arr.set v.2 ⟨TokTag.base, 0⟩)
    else tokens c

/-- `captureIfAllowed(room, color, destP)`: only on the ring (destP < 52)
and not on a safe tile; every opposing occupant of the destination cell is
sent back to base. -/
def captureIfAllowed (room : Room) (color : Color) (destP : Nat) : Room :=
  if 52 ≤ destP then room
  else
    let ringIdx := onRingIndex color destP
    if ringIdx ∈ SAFE_TILES then room
    else
      let victims := (occupantsOnRing room ringIdx).filter (fun o => o.1 ≠ color)
      { room with tokens := victims.foldl setBase room.tokens }

/-- `hasAnyMove(room, color)`: a base token may enter, or some path token
can advance without overshooting `MAX_LANE`. -/
def hasAnyMove (room : Room) (color : Color) : Bool :=
  let toks := (room.tokens color).getD []
  canLeaveBase room color ||
    toks.any (fun t => t.t = TokTag.path && t.p + room.dice.getD 0 ≤ MAX_LANE)

/-- Write one token slot of one color (`room.tokens[color][i] = tok`). -/
def setToken (room : Room) (color : Color) (i : Nat) (tok : Token) : Room :=
  { room with tokens := fun c =>
      if c = color then (room.tokens c).map (fun arr => arr.set i tok)
      else room.tokens c }

/-- `tryMove(room, player, tokenIdx)`: `none` when the move is rejected
(so the room is unchanged), `some room1` for the updated room.  Mirrors
the source branch for branch: base needs `canLeaveBase` and enters at
path 0 then captures; home never moves; path adds the die, rejects
overshoot, captures at the target, then lands (home exactly at
`MAX_LANE`). -/
def tryMove (room : Room) (color : Color) (tokenIdx : Nat) : Option Room :=
  match (room.tokens color).bind (fun arr => arr.get? tokenIdx) with
  | none => none
  | some tok =>
    match tok.t with
    | TokTag.base =>
        if canLeaveBase room color then
          let room1 := setToken room color tokenIdx ⟨TokTag.path, 0⟩
          some (captureIfAllowed room1 color 0)
        else none
    | TokTag.home => none
    | TokTag.path =>
        let target := tok.p + room.dice.getD 0
        if MAX_LANE < target then none
        else
          let room1 := captureIfAllowed room color target
          let tokNew : Token :=
            if target = MAX_LANE then ⟨TokTag.home, MAX_LANE⟩
            else ⟨TokTag.path, target⟩
          some (setToken room1 color tokenIdx tokNew)

/-- Number of home tokens in an array (`arr.filter(t => t.t === "home").length`). -/
def homeCount (arr : List Token) : Nat :=
  (arr.filter (fun t => t.t = TokTag.home)).length

/-- The first seated player, in seat order, all of whose counted home
tokens number 4 — the loop of `checkWin`. -/
def findWinner (room : Room) : Option Color :=
  (room.players.find? (fun p => homeCount ((room.tokens p.color).getD []) = 4)).map
    (fun p => p.color)

/-- `checkWin(room)`: on a winner, mark the room finished and report the
winning color; otherwise leave the room untouched. -/
def checkWin (room : Room) : Room × Option Color :=
  match findWinner room with
  | some c => ({ room with status := Status.finished }, some c)
  | none => (room, none)

/-- `doRoll(room, player)` with the random die given explicitly.  The
three guards (not playing / not the turn holder / die already pending)
return with no state change and no message; otherwise the die and the
last-roll cache are stored and the new state broadcast.  The no-move
auto-pass timer is modelled as a later separate `nextTurn` step. -/
def doRoll (room : Room) (player : Player) (roll : Nat) : Room × List Msg :=
  if room.status ≠ Status.playing then (room, [])
  else if (room.players.get? room.turnIdx).map Player.id ≠ some player.id then (room, [])
  else if room.dice ≠ none then (room, [])
  else
    ({ room with
        dice := some roll
        lastRolls := fun c =>
          if c = player.color then some roll else room.lastRolls c },
      [Msg.state])

/-- `doMove(room, player, tokenIdx)`: guards, then `tryMove`; on success
an extra turn iff the die was 6, then `checkWin` (ending the game) or
`nextTurn`. -/
def doMove (room : Room) (player : Player) (tokenIdx : Nat) : Room × List Msg :=
  if room.status ≠ Status.playing then (room, [])
  else if (room.players.get? room.turnIdx).map Player.id ≠ some player.id then (room, [])
  else if room.dice = none then (room, [])
  else
    match tryMove room player.color tokenIdx with
    | none => (room, [])
    | some room1 =>
        let extra := room.dice = some 6
        match checkWin room1 with
        | (room2, some w) => (room2, [Msg.state, Msg.finishedMsg w])
        | (room2, none) => (nextTurn room2 extra, [Msg.state])

/-- `botPickMove(room, color)`: release a base token on a 6 when entry is
legal; else the first token finishing exactly at `MAX_LANE`; else the
first path token that can move; else none (the source`s -1). -/
def botPickMove (room : Room) (color : Color) : Option Nat :=
  let toks := (room.tokens color).getD []
  let dice := room.dice.getD 0
  let fromBase : Option Nat :=
    if room.dice = some 6 then
      match toks.findIdx? (fun t => t.t = TokTag.base) with
      | some i => if canLeaveBase room color then some i else none
      | none => none
    else none
  match fromBase with
  | some i => some i
  | none =>
      match toks.findIdx? (fun t => t.t = TokTag.path && t.p + dice = MAX_LANE) with
      | some i => some i
      | none => toks.findIdx? (fun t => t.t = TokTag.path && t.p + dice ≤ MAX_LANE)

/-- The join handler: assign the lowest free color (else a Room-is-full
error to the sender only), seat the new player, and start the game when
the third seat fills while still waiting. -/
def join (room : Room) (pid : Nat) : Room × List Msg :=
  match pickColor (room.players.map Player.color) with
  | none => (room, [Msg.errorMsg "Room is full"])
  | some color =>
      let room1 := { room with players := room.players ++ [⟨pid, color, false⟩] }
      if room1.players.length = 3 ∧ room1.status = Status.waiting then
        (startGame room1, [Msg.joined, Msg.state])
      else (room1, [Msg.joined, Msg.state])

/-- The addBot handler: waiting rooms below 3 seats only; same color
assignment and same auto-start as join. -/
def addBot (room : Room) (pid : Nat) : Room :=
  if 3 ≤ room.players.length ∨ room.status ≠ Status.waiting then room
  else
    match pickColor (room.players.map Player.color) with
    | none => room
    | some color =>
        let room1 := { room with players := room.players ++ [⟨pid, color, true⟩] }
        if room1.players.length = 3 ∧ room1.status = Status.waiting then startGame room1
        else room1

/-- Remove the last bot of the seat list (the backwards splice loop of
the removeBot handler). -/
def removeLastBot : List Player → List Player
  | [] => []
  | p :: rest =>
      if rest.any (fun q => q.bot) then p :: removeLastBot rest
      else if p.bot then rest
      else p :: rest

/-- The removeBot handler: waiting rooms only. -/
def removeBot (room : Room) : Room :=
  if room.status ≠ Status.waiting then room
  else { room with players := removeLastBot room.players }

/-- Drop the first player carrying this id (findIndex + splice). -/
def removeFirstById : List Player → Nat → List Player
  | [], _ => []
  | p :: rest, pid => if p.id = pid then rest else p :: removeFirstById rest pid

/-- The ws close handler: unseat the leaver; an emptied room is destroyed
(`none`); a playing room clamps an out-of-range turn index to 0 and
clears the pending die; the status is never changed. -/
def handleClose (room : Room) (pid : Nat) : Option Room :=
  let players1 := removeFirstById room.players pid
  if players1.isEmpty then none
  else
    let room1 := { room with players := players1 }
    if room1.status = Status.playing then
      some { room1 with
        turnIdx := if players1.length ≤ room1.turnIdx then 0 else room1.turnIdx
        dice := none }
    else some room1

/-! ### Basic facts about the embedded operations -/

theorem mem_COLORS (c : Color) : c ∈ COLORS := by
  cases c <;> simp [COLORS]

/-- Membership in the ring-occupant scan, phrased directly over the token
arrays. -/
theorem occ_mem (room : Room) (ring : Nat) (c : Color) (i : Nat) :
    (c, i) ∈ occupantsOnRing room ring ↔
      ∃ arr tok, room.tokens c = some arr ∧ arr.get? i = some tok ∧
        tok.t = TokTag.path ∧ tok.p < 52 ∧ onRingIndex c tok.p = ring := by
  unfold occupantsOnRing
  rw [List.mem_flatMap]
  constructor
  · rintro ⟨c1, _, hmem⟩
    cases htc : room.tokens c1 with
    | none => rw [htc] at hmem; simp at hmem
    | some arr =>
        rw [htc, List.mem_filterMap] at hmem
        obtain ⟨⟨j, tok⟩, hj, heq⟩ := hmem
        by_cases hcond :
            tok.t = TokTag.path ∧ tok.p < 52 ∧ onRingIndex c1 tok.p = ring
        · rw [if_pos hcond] at heq
          obtain ⟨h1, h2⟩ := Prod.mk.injEq .. ▸ Option.some.injEq .. ▸ heq
          subst h1; subst h2
          rw [List.mk_mem_enum_iff_get?] at hj
          exact ⟨arr, tok, htc, hj, hcond⟩
        · rw [if_neg hcond] at heq; cases heq
  · rintro ⟨arr, tok, htc, hget, hpath, hlt, hring⟩
    refine ⟨c, mem_COLORS c, ?_⟩
    rw [htc, List.mem_filterMap]
    refine ⟨(i, tok), ?_, ?_⟩
    · rw [List.mk_mem_enum_iff_get?]; exact hget
    · rw [if_pos ⟨hpath, hlt, hring⟩]

theorem get?_set_set_base (arr : List Token) (m i : Nat) :
    ((arr.set m ⟨TokTag.base, 0⟩).set i ⟨TokTag.base, 0⟩).get? i =
      (arr.set i ⟨TokTag.base, 0⟩).get? i := by
  simp [List.get?_eq_getElem?, List.getElem?_set, List.length_set]

theorem get?_set_other (arr : List Token) {m i : Nat} (h : m ≠ i) (tok : Token) :
    (arr.set m tok).get? i = arr.get? i := by
  simp [List.get?_eq_getElem?, List.getElem?_set, h]

/-- Pointwise description of the capture mutation loop. -/
theorem foldl_setBase_get? (vs : List (Color × Nat))
    (tokens : Color → Option (List Token)) (c : Color) (i : Nat) :
    ((vs.foldl setBase tokens) c).bind (fun a => a.get? i) =
      if (c, i) ∈ vs then
        ((tokens c).map (fun a => a.set i ⟨TokTag.base, 0⟩)).bind (fun a => a.get? i)
      else (tokens c).bind (fun a => a.get? i) := by
  induction vs generalizing tokens with
  | nil => simp
  | cons v vs ih =>
      rw [List.foldl_cons, ih (setBase tokens v)]
      have hsb : (setBase tokens v) c =
          if c = v.1 then (tokens c).map (fun arr => arr.set v.2 ⟨TokTag.base, 0⟩)
          else tokens c := rfl
      by_cases hv : (c, i) ∈ vs
      · rw [if_pos hv, if_pos (List.mem_cons_of_mem v hv), hsb]
        by_cases hc : c = v.1
        · rw [if_pos hc]
          cases tokens c with
          | none => rfl
          | some arr =>
              simp only [Option.map_map, Function.comp_def, Option.map_some',
                Option.some_bind]
              exact get?_set_set_base arr v.2 i
        · rw [if_neg hc]
      · by_cases hvc : v = (c, i)
        · subst hvc
          rw [if_neg hv, if_pos (List.mem_cons_self _ _), hsb, if_pos rfl]
        · have hnotc : (c, i) ∉ v :: vs := by
            intro hmem
            rcases List.mem_cons.mp hmem with h | h
            · exact hvc h.symm
            · exact hv h
          rw [if_neg hv, if_neg hnotc, hsb]
          by_cases hc : c = v.1
          · rw [if_pos hc]
            cases tokens c with
            | none => rfl
            | some arr =>
                simp only [Option.map_some', Option.some_bind]
                apply get?_set_other
                intro h
                apply hvc
                cases v
                simp_all
          · rw [if_neg hc]

theorem foldl_setBase_length (vs : List (Color × Nat))
    (tokens : Color → Option (List Token)) (c : Color) :
    ((vs.foldl setBase tokens) c).map List.length = (tokens c).map List.length := by
  induction vs generalizing tokens with
  | nil => rfl
  | cons v vs ih =>
      rw [List.foldl_cons, ih (setBase tokens v)]
      have hsb : (setBase tokens v) c =
          if c = v.1 then (tokens c).map (fun arr => arr.set v.2 ⟨TokTag.base, 0⟩)
          else tokens c := rfl
      rw [hsb]
      by_cases hc : c = v.1
      · rw [if_pos hc]; cases tokens c <;> simp
      · rw [if_neg hc]

theorem foldl_setBase_notin (vs : List (Color × Nat))
    (tokens : Color → Option (List Token)) (c : Color)
    (h : ∀ v ∈ vs, v.1 ≠ c) :
    (vs.foldl setBase tokens) c = tokens c := by
  induction vs generalizing tokens with
  | nil => rfl
  | cons v vs ih =>
      rw [List.foldl_cons, ih (setBase tokens v)
        (fun u hu => h u (List.mem_cons_of_mem v hu))]
      have hsb : (setBase tokens v) c =
          if c = v.1 then (tokens c).map (fun arr => arr.set v.2 ⟨TokTag.base, 0⟩)
          else tokens c := rfl
      rw [hsb, if_neg (fun hch => h v (List.mem_cons_self v vs) hch.symm)]

/-- A capture never touches the status, seats, turn index, die or
last-roll cache. -/
theorem capture_fields (room : Room) (mover : Color) (destP : Nat) :
    (captureIfAllowed room mover destP).status = room.status ∧
    (captureIfAllowed room mover destP).players = room.players ∧
    (captureIfAllowed room mover destP).turnIdx = room.turnIdx ∧
    (captureIfAllowed room mover destP).dice = room.dice ∧
    (captureIfAllowed room mover destP).lastRolls = room.lastRolls := by
  simp only [captureIfAllowed]
  split
  · exact ⟨rfl, rfl, rfl, rfl, rfl⟩
  · split
    · exact ⟨rfl, rfl, rfl, rfl, rfl⟩
    · exact ⟨rfl, rfl, rfl, rfl, rfl⟩

/-- A capture never changes the lengths of the token arrays. -/
theorem capture_length (room : Room) (mover : Color) (destP : Nat) (c : Color) :
    ((captureIfAllowed room mover destP).tokens c).map List.length =
      (room.tokens c).map List.length := by
  simp only [captureIfAllowed]
  split
  · rfl
  · split
    · rfl
    · exact foldl_setBase_length _ room.tokens c

/-- A capture never touches the moving color`s own tokens. -/
theorem capture_tokens_mover (room : Room) (mover : Color) (destP : Nat) :
    (captureIfAllowed room mover destP).tokens mover = room.tokens mover := by
  simp only [captureIfAllowed]
  split
  · rfl
  · split
    · rfl
    · refine foldl_setBase_notin _ room.tokens mover ?_
      intro v hv
      rw [List.mem_filter] at hv
      simpa using hv.2

/-- Full pointwise description of `captureIfAllowed`: a token slot is
reset to base exactly when the destination is a capturable ring cell and
the slot holds an opposing ring token on that very cell; every other slot
is untouched. -/
theorem capture_get? (room : Room) (mover : Color) (destP : Nat) (c : Color)
    (arr : List Token) (i : Nat) (tok : Token)
    (harr : room.tokens c = some arr) (htok : arr.get? i = some tok) :
    ((captureIfAllowed room mover destP).tokens c).bind (fun a => a.get? i) =
      some (if destP < 52 ∧ onRingIndex mover destP ∉ SAFE_TILES ∧ c ≠ mover ∧
               tok.t = TokTag.path ∧ tok.p < 52 ∧
               onRingIndex c tok.p = onRingIndex mover destP
            then ⟨TokTag.base, 0⟩ else tok) := by
  simp only [captureIfAllowed]
  by_cases h52 : 52 ≤ destP
  · rw [if_pos h52, if_neg (by simp [Nat.not_lt.mpr h52]), harr]
    simp only [Option.some_bind]
    exact htok
  · rw [if_neg h52]
    have h52lt : destP < 52 := Nat.lt_of_not_le h52
    by_cases hsafe : onRingIndex mover destP ∈ SAFE_TILES
    · rw [if_pos hsafe, if_neg (by simp [hsafe]), harr]
      simp only [Option.some_bind]
      exact htok
    · rw [if_neg hsafe]
      dsimp only
      rw [foldl_setBase_get?]
      by_cases hmem :
          (c, i) ∈ (occupantsOnRing room (onRingIndex mover destP)).filter
            (fun o => o.1 ≠ mover)
      · rw [if_pos hmem]
        rw [List.mem_filter] at hmem
        obtain ⟨hocc, hne⟩ := hmem
        rw [occ_mem] at hocc
        obtain ⟨arr1, tok1, harr1, htok1, hp, hlt, hring⟩ := hocc
        rw [harr] at harr1
        cases harr1
        rw [htok] at htok1
        cases htok1
        have hcne : c ≠ mover := by simpa using hne
        rw [if_pos ⟨h52lt, hsafe, hcne, hp, hlt, hring⟩, harr]
        have hilen : i < arr.length := by
          rcases List.get?_eq_some.mp htok with ⟨h, _⟩
          exact h
        simp [List.get?_eq_getElem?, List.getElem?_set, hilen]
      · rw [if_neg hmem]
        have hcond : ¬(destP < 52 ∧ onRingIndex mover destP ∉ SAFE_TILES ∧
            c ≠ mover ∧ tok.t = TokTag.path ∧ tok.p < 52 ∧
            onRingIndex c tok.p = onRingIndex mover destP) := by
          rintro ⟨_, _, hcne, hp, hlt, hring⟩
          apply hmem
          rw [List.mem_filter]
          refine ⟨(occ_mem room _ c i).mpr ⟨arr, tok, harr, htok, hp, hlt, hring⟩, ?_⟩
          simpa using hcne
        rw [if_neg hcond, harr]
        simp only [Option.some_bind]
        exact htok

theorem countP_enumFrom (arr : List Token) (n : Nat) (p : Token → Bool) :
    (arr.enumFrom n).countP (fun it => p it.2) = arr.countP p := by
  induction arr generalizing n with
  | nil => rfl
  | cons a l ih => simp [List.enumFrom, List.countP_cons, ih]

theorem filter_fst_length (c1 c : Color) (ring : Nat) (l : List (Nat × Token)) :
    ((l.filterMap (fun it =>
        if it.2.t = TokTag.path ∧ it.2.p < 52 ∧ onRingIndex c1 it.2.p = ring
        then some (c1, it.1) else none)).filter (fun o => o.1 = c)).length =
      if c1 = c then
        l.countP (fun it =>
          decide (it.2.t = TokTag.path ∧ it.2.p < 52 ∧ onRingIndex c1 it.2.p = ring))
      else 0 := by
  induction l with
  | nil => simp
  | cons x l ih =>
      rw [List.filterMap_cons]
      by_cases hx : x.2.t = TokTag.path ∧ x.2.p < 52 ∧ onRingIndex c1 x.2.p = ring
      · rw [if_pos hx, List.filter_cons]
        by_cases hc : c1 = c
        · rw [if_pos (by simpa using hc), List.length_cons, ih, if_pos hc,
            List.countP_cons, if_pos hc]
          simp [hx]
        · rw [if_neg (by simpa using hc), ih, if_neg hc, if_neg hc]
      · rw [if_neg hx, ih]
        by_cases hc : c1 = c
        · rw [if_pos hc, if_pos hc, List.countP_cons]
          simp [hx]
        · rw [if_neg hc, if_neg hc]

theorem branch_filter_length (room : Room) (ring : Nat) (c1 c : Color) :
    (((match room.tokens c1 with
      | none => []
      | some arr =>
          arr.enum.filterMap (fun it =>
            if it.2.t = TokTag.path ∧ it.2.p < 52 ∧ onRingIndex c1 it.2.p = ring
            then some (c1, it.1) else none) : List (Color × Nat))).filter
        (fun o => o.1 = c)).length =
      if c1 = c then
        ((room.tokens c1).getD []).countP
          (fun t => decide (t.t = TokTag.path ∧ t.p < 52 ∧ onRingIndex c1 t.p = ring))
      else 0 := by
  cases htc : room.tokens c1 with
  | none => simp
  | some arr =>
      rw [filter_fst_length c1 c ring arr.enum]
      simp only [Option.getD_some]
      by_cases hc : c1 = c
      · rw [if_pos hc, if_pos hc]
        exact countP_enumFrom arr 0
          (fun t => decide (t.t = TokTag.path ∧ t.p < 52 ∧ onRingIndex c1 t.p = ring))
      · rw [if_neg hc, if_neg hc]

/-- The same-color occupant count of `canLeaveBase`, re-expressed as a
count over that color`s own token array: the other colors contribute
nothing to the filtered occupant list. -/
theorem occ_filter_color (room : Room) (ring : Nat) (c : Color) :
    ((occupantsOnRing room ring).filter (fun o => o.1 = c)).length =
      ((room.tokens c).getD []).countP
        (fun t => decide (t.t = TokTag.path ∧ t.p < 52 ∧ onRingIndex c t.p = ring)) := by
  unfold occupantsOnRing
  rw [show COLORS = [Color.red, Color.green, Color.blue] from rfl]
  simp only [List.flatMap_cons, List.flatMap_nil, List.append_nil,
    List.filter_append, List.length_append]
  rw [branch_filter_length room ring Color.red c,
    branch_filter_length room ring Color.green c,
    branch_filter_length room ring Color.blue c]
  cases c <;> simp

/-- `canLeaveBase` in terms of the pending die and the count of this
color`s own tokens sitting on its own start cell. -/
theorem canLeaveBase_iff (room : Room) (color : Color) :
    canLeaveBase room color = true ↔
      room.dice = some 6 ∧
        ((room.tokens color).getD []).countP
          (fun t => decide (t.t = TokTag.path ∧ t.p < 52 ∧
            onRingIndex color t.p = onRingIndex color 0)) < 2 := by
  unfold canLeaveBase
  by_cases hd : room.dice = some 6
  · rw [if_neg (by simpa using hd)]
    dsimp only
    rw [occ_filter_color room (onRingIndex color 0) color]
    simp [hd]
  · rw [if_pos (by simpa using hd)]
    simp [hd]

theorem setToken_fields (room : Room) (color : Color) (i : Nat) (tok : Token) :
    (setToken room color i tok).status = room.status ∧
    (setToken room color i tok).players = room.players ∧
    (setToken room color i tok).turnIdx = room.turnIdx ∧
    (setToken room color i tok).dice = room.dice ∧
    (setToken room color i tok).lastRolls = room.lastRolls :=
  ⟨rfl, rfl, rfl, rfl, rfl⟩

theorem setToken_length (room : Room) (color : Color) (i : Nat) (tok : Token)
    (c : Color) :
    ((setToken room color i tok).tokens c).map List.length =
      (room.tokens c).map List.length := by
  unfold setToken
  dsimp only
  by_cases hc : c = color
  · rw [if_pos hc]
    cases room.tokens c <;> simp
  · rw [if_neg hc]

/-- A successful `tryMove` only rewrites token arrays: status, seats, turn
index, pending die and last rolls are untouched. -/
theorem tryMove_fields (room : Room) (color : Color) (i : Nat) (room1 : Room)
    (h : tryMove room color i = some room1) :
    room1.status = room.status ∧ room1.players = room.players ∧
    room1.turnIdx = room.turnIdx ∧ room1.dice = room.dice ∧
    room1.lastRolls = room.lastRolls := by
  unfold tryMove at h
  cases hbind : (room.tokens color).bind (fun arr => arr.get? i) with
  | none => rw [hbind] at h; cases h
  | some tok =>
      rw [hbind] at h
      dsimp only at h
      cases htt : tok.t with
      | base =>
          rw [htt] at h
          by_cases hc : canLeaveBase room color = true
          · rw [if_pos hc] at h
            cases h
            obtain ⟨h1, h2, h3, h4, h5⟩ :=
              capture_fields (setToken room color i ⟨TokTag.path, 0⟩) color 0
            exact ⟨h1, h2, h3, h4, h5⟩
          · rw [if_neg hc] at h; cases h
      | home => rw [htt] at h; cases h
      | path =>
          rw [htt] at h
          dsimp only at h
          by_cases hov : MAX_LANE < tok.p + room.dice.getD 0
          · rw [if_pos hov] at h; cases h
          · rw [if_neg hov] at h
            cases h
            obtain ⟨h1, h2, h3, h4, h5⟩ :=
              capture_fields room color (tok.p + room.dice.getD 0)
            exact ⟨h1, h2, h3, h4, h5⟩

/-- A successful `tryMove` preserves the length of every token array. -/
theorem tryMove_length (room : Room) (color : Color) (i : Nat) (room1 : Room)
    (h : tryMove room color i = some room1) (c : Color) :
    (room1.tokens c).map List.length = (room.tokens c).map List.length := by
  unfold tryMove at h
  cases hbind : (room.tokens color).bind (fun arr => arr.get? i) with
  | none => rw [hbind] at h; cases h
  | some tok =>
      rw [hbind] at h
      dsimp only at h
      cases htt : tok.t with
      | base =>
          rw [htt] at h
          by_cases hc : canLeaveBase room color = true
          · rw [if_pos hc] at h
            cases h
            rw [capture_length, setToken_length]
          · rw [if_neg hc] at h; cases h
      | home => rw [htt] at h; cases h
      | path =>
          rw [htt] at h
          dsimp only at h
          by_cases hov : MAX_LANE < tok.p + room.dice.getD 0
          · rw [if_pos hov] at h; cases h
          · rw [if_neg hov] at h
            cases h
            rw [setToken_length, capture_length]

/-! ### Claim theorems -/

/-- C1: in a Playing session a Base token is movable (accepted by
`tryMove`, hence in the legal-move set) iff the pending die is 6 and fewer
than 2 tokens of that same color occupy that color`s own start cell.  The
blockade count ranges only over that color`s own token array, so opposing
tokens on the start cell never block entry. -/
theorem claim_C1_base_entry (room : Room) (color : Color) (i : Nat)
    (arr : List Token) (tok : Token)
    (hst : room.status = Status.playing)
    (harr : room.tokens color = some arr) (htok : arr.get? i = some tok)
    (hbase : tok.t = TokTag.base) :
    (tryMove room color i).isSome = true ↔
      room.dice = some 6 ∧
        arr.countP (fun t => decide (t.t = TokTag.path ∧ t.p < 52 ∧
          onRingIndex color t.p = onRingIndex color 0)) < 2 := by
  unfold tryMove
  rw [harr]
  simp only [Option.some_bind]
  rw [htok]
  dsimp only
  rw [hbase]
  by_cases hc : canLeaveBase room color = true
  · rw [if_pos hc]
    simp only [Option.isSome_some, true_iff]
    have h := (canLeaveBase_iff room color).mp hc
    rwa [harr, Option.getD_some] at h
  · rw [if_neg hc]
    simp only [Option.isSome_none, Bool.false_eq_true, false_iff]
    intro hcon
    apply hc
    rw [canLeaveBase_iff, harr, Option.getD_some]
    exact hcon

def wRoomC1 : Room :=
  { status := Status.playing
    players := [⟨1, Color.red, false⟩]
    tokens := fun c => if c = Color.red then some freshTokens else none
    turnIdx := 0
    dice := some 6
    lastRolls := fun _ => none }

theorem claim_C1_base_entry_witness :
    (tryMove wRoomC1 Color.red 0).isSome = true :=
  (claim_C1_base_entry wRoomC1 Color.red 0 freshTokens ⟨TokTag.base, 0⟩
    rfl rfl rfl rfl).mpr ⟨rfl, by decide⟩

/-- C2: a resolved move in a Playing session that does not end the game
always clears the pending die; the turn index stays put when the die used
was 6 and advances by one modulo the current seat count otherwise. -/
theorem claim_C2_turn_advance (room : Room) (player : Player) (idx : Nat)
    (room1 : Room)
    (hst : room.status = Status.playing)
    (hturn : (room.players.get? room.turnIdx).map Player.id = some player.id)
    (hdice : room.dice ≠ none)
    (hmv : tryMove room player.color idx = some room1)
    (hnw : findWinner room1 = none) :
    (doMove room player idx).1.dice = none ∧
    (doMove room player idx).1.turnIdx =
      (if room.dice = some 6 then room.turnIdx
       else (room.turnIdx + 1) % room.players.length) := by
  obtain ⟨hf1, hf2, hf3, hf4, hf5⟩ := tryMove_fields room player.color idx room1 hmv
  unfold doMove
  rw [if_neg (not_not_intro hst), if_neg (not_not_intro hturn), if_neg hdice, hmv]
  dsimp only
  rw [show checkWin room1 = (room1, none) by unfold checkWin; rw [hnw]]
  by_cases hd : room.dice = some 6
  · rw [if_pos hd]
    unfold nextTurn
    refine ⟨rfl, ?_⟩
    dsimp only
    rw [if_pos (by simp [hd]), hf3]
  · rw [if_neg hd]
    unfold nextTurn
    refine ⟨rfl, ?_⟩
    dsimp only
    rw [if_neg (by simp [hd]), hf3, hf2]

def wRoomC2 : Room :=
  { status := Status.playing
    players := [⟨1, Color.red, false⟩, ⟨2, Color.green, false⟩]
    tokens := fun c => if c = Color.red then
        some [⟨TokTag.path, 3⟩, ⟨TokTag.base, 0⟩, ⟨TokTag.base, 0⟩, ⟨TokTag.base, 0⟩]
      else if c = Color.green then some freshTokens else none
    turnIdx := 0
    dice := some 2
    lastRolls := fun _ => none }

theorem claim_C2_turn_advance_witness :
    (doMove wRoomC2 ⟨1, Color.red, false⟩ 0).1.dice = none ∧
    (doMove wRoomC2 ⟨1, Color.red, false⟩ 0).1.turnIdx = 1 := by
  have h := claim_C2_turn_advance wRoomC2 ⟨1, Color.red, false⟩ 0
    (setToken (captureIfAllowed wRoomC2 Color.red 5) Color.red 0 ⟨TokTag.path, 5⟩)
    rfl rfl (by decide) rfl (by decide)
  simpa using h

/-- C3: after a capture resolution at destination step destP, a token slot
is reset to Base exactly when the destination is still on the shared track
(destP < 52), its absolute cell is not safe, and the slot holds an
opposing ring token on that cell; every other slot — same color as the
mover, private lane (p ≥ 52), safe cell, or different cell — keeps its
exact previous value. -/
theorem claim_C3_capture (room : Room) (mover : Color) (destP : Nat)
    (c : Color) (arr : List Token) (i : Nat) (tok : Token)
    (harr : room.tokens c = some arr) (htok : arr.get? i = some tok) :
    ((captureIfAllowed room mover destP).tokens c).bind (fun a => a.get? i) =
      some (if destP < 52 ∧ onRingIndex mover destP ∉ SAFE_TILES ∧ c ≠ mover ∧
               tok.t = TokTag.path ∧ tok.p < 52 ∧
               onRingIndex c tok.p = onRingIndex mover destP
            then ⟨TokTag.base, 0⟩ else tok) :=
  capture_get? room mover destP c arr i tok harr htok

def wRoomC3 : Room :=
  { status := Status.playing
    players := []
    tokens := fun c => if c = Color.red then some [⟨TokTag.path, 5⟩] else none
    turnIdx := 0
    dice := none
    lastRolls := fun _ => none }

theorem claim_C3_capture_witness :
    ((captureIfAllowed wRoomC3 Color.green 44).tokens Color.red).bind
      (fun a => a.get? 0) = some ⟨TokTag.base, 0⟩ := by
  have h := claim_C3_capture wRoomC3 Color.green 44 Color.red
    [⟨TokTag.path, 5⟩] 0 ⟨TokTag.path, 5⟩ rfl rfl
  rw [h, if_pos]
  refine ⟨by decide, by decide, by decide, rfl, by decide, by decide⟩

/-- C4: an OnTrack(s) token`s move is accepted exactly when s + die ≤
`MAX_LANE`; acceptance rewrites the token to OnTrack(s+die), turning it
Home exactly on s + die = `MAX_LANE`; overshoot is rejected (`tryMove`
returns none, and `doMove` then leaves the room unchanged); Home tokens
are never movable. -/
theorem claim_C4_track_move (room : Room) (color : Color) (i : Nat)
    (arr : List Token) (tok : Token)
    (harr : room.tokens color = some arr) (htok : arr.get? i = some tok) :
    (tok.t = TokTag.path →
      ((tryMove room color i).isSome = true ↔
        tok.p + room.dice.getD 0 ≤ MAX_LANE) ∧
      (∀ room1, tryMove room color i = some room1 →
        (room1.tokens color).bind (fun a => a.get? i) =
          some (if tok.p + room.dice.getD 0 = MAX_LANE
                then ⟨TokTag.home, MAX_LANE⟩
                else ⟨TokTag.path, tok.p + room.dice.getD 0⟩))) ∧
    (tok.t = TokTag.home → tryMove room color i = none) ∧
    (∀ player : Player, player.color = color → tryMove room color i = none →
      doMove room player i = (room, [])) := by
  have hilen : i < arr.length := by
    rcases List.get?_eq_some.mp htok with ⟨h, _⟩
    exact h
  refine ⟨?_, ?_, ?_⟩
  · intro hpath
    have hred : tryMove room color i =
        (if MAX_LANE < tok.p + room.dice.getD 0 then none
         else some (setToken (captureIfAllowed room color (tok.p + room.dice.getD 0))
           color i (if tok.p + room.dice.getD 0 = MAX_LANE
                    then ⟨TokTag.home, MAX_LANE⟩
                    else ⟨TokTag.path, tok.p + room.dice.getD 0⟩))) := by
      unfold tryMove
      rw [harr]
      simp only [Option.some_bind]
      rw [htok]
      dsimp only
      rw [hpath]
    constructor
    · rw [hred]
      by_cases hov : MAX_LANE < tok.p + room.dice.getD 0
      · rw [if_pos hov]
        simp [Nat.not_le.mpr hov]
      · rw [if_neg hov]
        simp [Nat.not_lt.mp hov]
    · intro room1 hm
      rw [hred] at hm
      by_cases hov : MAX_LANE < tok.p + room.dice.getD 0
      · rw [if_pos hov] at hm; cases hm
      · rw [if_neg hov] at hm
        cases hm
        unfold setToken
        dsimp only
        rw [if_pos rfl, capture_tokens_mover, harr]
        simp only [Option.map_some', Option.some_bind]
        have hlen : i < arr.length := hilen
        simp [List.get?_eq_getElem?, List.getElem?_set, hlen]
  · intro hhome
    unfold tryMove
    rw [harr]
    simp only [Option.some_bind]
    rw [htok]
    dsimp only
    rw [hhome]
  · intro player hpc hnone
    unfold doMove
    by_cases h1 : room.status ≠ Status.playing
    · rw [if_pos h1]
    · rw [if_neg h1]
      by_cases h2 : (room.players.get? room.turnIdx).map Player.id ≠ some player.id
      · rw [if_pos h2]
      · rw [if_neg h2]
        by_cases h3 : room.dice = none
        · rw [if_pos h3]
        · rw [if_neg h3, hpc, hnone]

def wRoomC4 : Room :=
  { status := Status.playing
    players := [⟨1, Color.red, false⟩]
    tokens := fun c => if c = Color.red then
        some [⟨TokTag.path, 51⟩, ⟨TokTag.home, 57⟩] else none
    turnIdx := 0
    dice := some 6
    lastRolls := fun _ => none }

theorem claim_C4_track_move_witness :
    (tryMove wRoomC4 Color.red 0).isSome = true ∧
    tryMove wRoomC4 Color.red 1 = none := by
  constructor
  · exact ((claim_C4_track_move wRoomC4 Color.red 0
      [⟨TokTag.path, 51⟩, ⟨TokTag.home, 57⟩] ⟨TokTag.path, 51⟩ rfl rfl).1
      rfl).1.mpr (by decide)
  · exact (claim_C4_track_move wRoomC4 Color.red 1
      [⟨TokTag.path, 51⟩, ⟨TokTag.home, 57⟩] ⟨TokTag.home, 57⟩ rfl rfl).2.1 rfl

theorem homeCount_eq_four_iff (arr : List Token) (hlen : arr.length = 4) :
    homeCount arr = 4 ↔ ∀ t ∈ arr, t.t = TokTag.home := by
  unfold homeCount
  constructor
  · intro h t ht
    have hfeq : arr.filter (fun t => t.t = TokTag.home) = arr :=
      (List.filter_sublist arr).eq_of_length (by rw [h, hlen])
    have := List.filter_eq_self.mp hfeq t ht
    simpa using this
  · intro h
    rw [List.filter_eq_self.mpr (fun a ha => by simpa using h a ha), hlen]

/-- C5: the win check reports a winner exactly when some seated color has
all 4 of its tokens Home (given that every seated color holds a 4-token
array); a reported winner comes with the Finished status and is a seated
color whose tokens are all Home; and without a winner `checkWin` leaves
the room — in particular its status — completely unchanged. -/
theorem claim_C5_win (room : Room)
    (hlen : ∀ p ∈ room.players, ((room.tokens p.color).getD []).length = 4) :
    ((checkWin room).2.isSome = true ↔
      ∃ p ∈ room.players, ∀ t ∈ (room.tokens p.color).getD [], t.t = TokTag.home) ∧
    (∀ c, (checkWin room).2 = some c →
      (checkWin room).1.status = Status.finished ∧
      ∃ p ∈ room.players, p.color = c ∧
        ∀ t ∈ (room.tokens p.color).getD [], t.t = TokTag.home) ∧
    ((checkWin room).2 = none → (checkWin room).1 = room) := by
  have hiff : ∀ p ∈ room.players,
      (homeCount ((room.tokens p.color).getD []) = 4 ↔
        ∀ t ∈ (room.tokens p.color).getD [], t.t = TokTag.home) :=
    fun p hp => homeCount_eq_four_iff _ (hlen p hp)
  unfold checkWin
  cases hfw : findWinner room with
  | none =>
      dsimp only
      refine ⟨?_, ?_, fun _ => rfl⟩
      · simp only [Option.isSome_none, Bool.false_eq_true, false_iff]
        rintro ⟨p, hp, hall⟩
        unfold findWinner at hfw
        rw [Option.map_eq_none'] at hfw
        have hnone := List.find?_eq_none.mp hfw p hp
        rw [decide_eq_true_eq] at hnone
        exact hnone ((hiff p hp).mpr hall)
      · intro c hc
        cases hc
  | some w =>
      dsimp only
      unfold findWinner at hfw
      rw [Option.map_eq_some'] at hfw
      obtain ⟨p, hfind, hpc⟩ := hfw
      have hp : p ∈ room.players := List.mem_of_find?_eq_some hfind
      have hpred : homeCount ((room.tokens p.color).getD []) = 4 := by
        have := List.find?_some hfind
        simpa using this
      refine ⟨?_, ?_, ?_⟩
      · simp only [Option.isSome_some, true_iff]
        exact ⟨p, hp, (hiff p hp).mp hpred⟩
      · intro c hc
        injection hc with hc
        subst hc
        exact ⟨rfl, p, hp, hpc, (hiff p hp).mp hpred⟩
      · intro h
        cases h

def wRoomC5 : Room :=
  { status := Status.playing
    players := [⟨1, Color.red, false⟩]
    tokens := fun c => if c = Color.red then
        some [⟨TokTag.home, 57⟩, ⟨TokTag.home, 57⟩, ⟨TokTag.home, 57⟩, ⟨TokTag.home, 57⟩]
      else none
    turnIdx := 0
    dice := none
    lastRolls := fun _ => none }

theorem claim_C5_win_witness : (checkWin wRoomC5).2.isSome = true :=
  (claim_C5_win wRoomC5 (by decide)).1.mpr
    ⟨⟨1, Color.red, false⟩, by decide, by decide⟩

/-- A capture never rewrites a Home slot (captures only reach ring
tokens, i.e. state path with step < 52). -/
theorem capture_home_get? (room : Room) (mover : Color) (destP : Nat)
    (c : Color) (i : Nat) (tok : Token) (hh : tok.t = TokTag.home)
    (hb : (room.tokens c).bind (fun a => a.get? i) = some tok) :
    ((captureIfAllowed room mover destP).tokens c).bind (fun a => a.get? i) =
      some tok := by
  cases harr : room.tokens c with
  | none => rw [harr] at hb; cases hb
  | some arr =>
      rw [harr] at hb
      simp only [Option.some_bind] at hb
      rw [capture_get? room mover destP c arr i tok harr hb, if_neg]
      rintro ⟨-, -, -, hpath, -⟩
      rw [hh] at hpath
      cases hpath

theorem setToken_get?_other (room : Room) (color : Color) (j : Nat)
    (tokNew : Token) (c : Color) (i : Nat) (h : c ≠ color ∨ i ≠ j) :
    ((setToken room color j tokNew).tokens c).bind (fun a => a.get? i) =
      (room.tokens c).bind (fun a => a.get? i) := by
  unfold setToken
  dsimp only
  by_cases hc : c = color
  · rw [if_pos hc]
    cases room.tokens c with
    | none => rfl
    | some arr =>
        simp only [Option.map_some', Option.some_bind]
        have hij : j ≠ i := by
          rcases h with h | h
          · exact absurd hc h
          · exact fun he => h he.symm
        exact get?_set_other arr hij tokNew
  · rw [if_neg hc]

/-- A successful `tryMove` never rewrites a Home slot. -/
theorem tryMove_home_get? (room : Room) (color : Color) (j : Nat)
    (room1 : Room) (hmv : tryMove room color j = some room1)
    (c : Color) (i : Nat) (tok : Token) (hh : tok.t = TokTag.home)
    (hb : (room.tokens c).bind (fun a => a.get? i) = some tok) :
    (room1.tokens c).bind (fun a => a.get? i) = some tok := by
  unfold tryMove at hmv
  cases hbind : (room.tokens color).bind (fun arr => arr.get? j) with
  | none => rw [hbind] at hmv; cases hmv
  | some tokJ =>
      rw [hbind] at hmv
      dsimp only at hmv
      have hslot : tokJ.t ≠ TokTag.home → (c ≠ color ∨ i ≠ j) := by
        intro hne
        by_cases hc : c = color
        · right
          intro hij
          subst hc
          subst hij
          rw [hb] at hbind
          injection hbind with he
          rw [← he] at hne
          exact hne hh
        · exact Or.inl hc
      cases htt : tokJ.t with
      | base =>
          rw [htt] at hmv
          have hs := hslot (by rw [htt]; decide)
          by_cases hcb : canLeaveBase room color = true
          · rw [if_pos hcb] at hmv
            cases hmv
            exact capture_home_get? _ color 0 c i tok hh
              (by rw [setToken_get?_other room color j ⟨TokTag.path, 0⟩ c i hs]; exact hb)
          · rw [if_neg hcb] at hmv; cases hmv
      | home => rw [htt] at hmv; cases hmv
      | path =>
          rw [htt] at hmv
          have hs := hslot (by rw [htt]; decide)
          by_cases hov : MAX_LANE < tokJ.p + room.dice.getD 0
          · rw [if_pos hov] at hmv; cases hmv
          · rw [if_neg hov] at hmv
            cases hmv
            rw [setToken_get?_other _ color j _ c i hs]
            exact capture_home_get? room color _ c i tok hh hb

theorem checkWin_tokens (room : Room) : (checkWin room).1.tokens = room.tokens := by
  unfold checkWin
  cases findWinner room <;> rfl

theorem nextTurn_tokens (room : Room) (b : Bool) :
    (nextTurn room b).tokens = room.tokens := rfl

/-- `doMove` never rewrites a Home slot. -/
theorem doMove_home_get? (room : Room) (player : Player) (j : Nat)
    (c : Color) (i : Nat) (tok : Token) (hh : tok.t = TokTag.home)
    (hb : (room.tokens c).bind (fun a => a.get? i) = some tok) :
    (((doMove room player j).1.tokens c).bind (fun a => a.get? i)) = some tok := by
  unfold doMove
  by_cases h1 : room.status ≠ Status.playing
  · rw [if_pos h1]; exact hb
  · rw [if_neg h1]
    by_cases h2 : (room.players.get? room.turnIdx).map Player.id ≠ some player.id
    · rw [if_pos h2]; exact hb
    · rw [if_neg h2]
      by_cases h3 : room.dice = none
      · rw [if_pos h3]; exact hb
      · rw [if_neg h3]
        cases hmv : tryMove room player.color j with
        | none => exact hb
        | some room1 =>
            dsimp only
            have hslot := tryMove_home_get? room player.color j room1 hmv c i tok hh hb
            unfold checkWin
            cases findWinner room1 with
            | none =>
                dsimp only
                rw [show (nextTurn room1 (decide (room.dice = some 6))).tokens =
                  room1.tokens from rfl]
                exact hslot
            | some w =>
                dsimp only
                exact hslot

/-- `doMove` preserves the length of every token array. -/
theorem doMove_length (room : Room) (player : Player) (j : Nat) (c : Color) :
    ((doMove room player j).1.tokens c).map List.length =
      (room.tokens c).map List.length := by
  unfold doMove
  by_cases h1 : room.status ≠ Status.playing
  · rw [if_pos h1]
  · rw [if_neg h1]
    by_cases h2 : (room.players.get? room.turnIdx).map Player.id ≠ some player.id
    · rw [if_pos h2]
    · rw [if_neg h2]
      by_cases h3 : room.dice = none
      · rw [if_pos h3]
      · rw [if_neg h3]
        cases hmv : tryMove room player.color j with
        | none => rfl
        | some room1 =>
            dsimp only
            have hlen := tryMove_length room player.color j room1 hmv c
            unfold checkWin
            cases findWinner room1 with
            | none => exact hlen
            | some w => exact hlen

theorem homeCount_le_of_pointwise (l l2 : List Token)
    (hlen : l2.length = l.length)
    (hpt : ∀ i t, l.get? i = some t → t.t = TokTag.home → l2.get? i = some t) :
    homeCount l ≤ homeCount l2 := by
  induction l generalizing l2 with
  | nil => simp [homeCount]
  | cons a l ih =>
      cases l2 with
      | nil => simp at hlen
      | cons b l2 =>
          have htl : ∀ i t, l.get? i = some t → t.t = TokTag.home →
              l2.get? i = some t := by
            intro i t ht hht
            have := hpt (i + 1) t (by simpa using ht) hht
            simpa using this
          have hih := ih l2 (by simpa using hlen) htl
          unfold homeCount at hih ⊢
          rw [List.filter_cons, List.filter_cons]
          by_cases ha : a.t = TokTag.home
          · have hb : b = a := by
              have h0 := hpt 0 a rfl ha
              simpa using h0
            subst hb
            rw [if_pos (by simpa using ha), if_pos (by simpa using ha)]
            simpa using hih
          · rw [if_neg (by simpa using ha)]
            by_cases hbb : b.t = TokTag.home
            · rw [if_pos (by simpa using hbb)]
              exact le_trans hih (by simp)
            · rw [if_neg (by simpa using hbb)]
              exact hih

/-- C10: Home is absorbing.  A slot holding a Home token is left exactly
as it is by every capture resolution, every accepted move of any color,
and every `doMove` of any seat (captures only consider shared-track
occupants — state path with step < 52 — and `tryMove` rejects Home
tokens); consequently each color`s count of Home tokens never decreases
across a `doMove`. -/
theorem claim_C10_home_absorbing (room : Room) :
    (∀ mover destP c i tok, tok.t = TokTag.home →
      (room.tokens c).bind (fun a => a.get? i) = some tok →
      ((captureIfAllowed room mover destP).tokens c).bind (fun a => a.get? i) =
        some tok) ∧
    (∀ color j room1 c i tok, tok.t = TokTag.home →
      (room.tokens c).bind (fun a => a.get? i) = some tok →
      tryMove room color j = some room1 →
      (room1.tokens c).bind (fun a => a.get? i) = some tok) ∧
    (∀ player j c i tok, tok.t = TokTag.home →
      (room.tokens c).bind (fun a => a.get? i) = some tok →
      ((doMove room player j).1.tokens c).bind (fun a => a.get? i) = some tok) ∧
    (∀ player j c, homeCount ((room.tokens c).getD []) ≤
      homeCount (((doMove room player j).1.tokens c).getD [])) := by
  refine ⟨?_, ?_, ?_, ?_⟩
  · exact fun mover destP c i tok hh hb =>
      capture_home_get? room mover destP c i tok hh hb
  · exact fun color j room1 c i tok hh hb hmv =>
      tryMove_home_get? room color j room1 hmv c i tok hh hb
  · exact fun player j c i tok hh hb =>
      doMove_home_get? room player j c i tok hh hb
  · intro player j c
    cases harr : room.tokens c with
    | none => simp [homeCount]
    | some arr =>
        have hlen := doMove_length room player j c
        rw [harr] at hlen
        cases hres : (doMove room player j).1.tokens c with
        | none => rw [hres] at hlen; cases hlen
        | some arr2 =>
            rw [hres] at hlen
            simp only [Option.map_some'] at hlen
            injection hlen with hlen
            simp only [Option.getD_some]
            refine homeCount_le_of_pointwise arr arr2 hlen ?_
            intro i t ht hht
            have hpt := doMove_home_get? room player j c i t hht
              (by rw [harr]; simpa using ht)
            rw [hres] at hpt
            simpa using hpt

def wRoomC10 : Room :=
  { status := Status.playing
    players := [⟨1, Color.red, false⟩, ⟨2, Color.green, false⟩]
    tokens := fun c =>
      if c = Color.red then some [⟨TokTag.home, 57⟩, ⟨TokTag.path, 3⟩]
      else if c = Color.green then some [⟨TokTag.path, 44⟩] else none
    turnIdx := 1
    dice := some 2
    lastRolls := fun _ => none }

theorem claim_C10_home_absorbing_witness :
    ((captureIfAllowed wRoomC10 Color.green 44).tokens Color.red).bind
      (fun a => a.get? 0) = some ⟨TokTag.home, 57⟩ ∧
    homeCount ((wRoomC10.tokens Color.red).getD []) ≤
      homeCount (((doMove wRoomC10 ⟨2, Color.green, false⟩ 0).1.tokens
        Color.red).getD []) :=
  ⟨(claim_C10_home_absorbing wRoomC10).1 Color.green 44 Color.red 0
      ⟨TokTag.home, 57⟩ rfl rfl,
    (claim_C10_home_absorbing wRoomC10).2.2.2 ⟨2, Color.green, false⟩ 0 Color.red⟩

/-- `i` is the least index of `toks` whose token satisfies `p`. -/
def leastIdx (p : Token → Bool) (toks : List Token) (i : Nat) : Prop :=
  ∃ h : i < toks.length, p (toks.get ⟨i, h⟩) = true ∧
    ∀ j (hj : j < i), p (toks.get ⟨j, Nat.lt_trans hj h⟩) = false

theorem findIdx?_leastIdx (p : Token → Bool) (toks : List Token) (i : Nat) :
    toks.findIdx? p = some i ↔ leastIdx p toks i := by
  rw [List.findIdx?_eq_some_iff_getElem]
  unfold leastIdx
  constructor
  · rintro ⟨h, hp, hall⟩
    refine ⟨h, by simpa [List.get_eq_getElem] using hp, ?_⟩
    intro j hj
    have := hall j hj
    simpa [List.get_eq_getElem] using this
  · rintro ⟨h, hp, hall⟩
    refine ⟨h, by simpa [List.get_eq_getElem] using hp, ?_⟩
    intro j hj
    have := hall j hj
    simpa [List.get_eq_getElem] using this

theorem canLeaveBase_dice (room : Room) (color : Color)
    (h : canLeaveBase room color = true) : room.dice = some 6 := by
  by_contra hne
  unfold canLeaveBase at h
  rw [if_pos hne] at h
  cases h

theorem botPickMove_cases (room : Room) (color : Color) (toks : List Token)
    (harr : room.tokens color = some toks) :
    botPickMove room color =
      if canLeaveBase room color = true ∧
          (toks.findIdx? (fun t => t.t = TokTag.base)).isSome = true then
        toks.findIdx? (fun t => t.t = TokTag.base)
      else
        match toks.findIdx? (fun t => t.t = TokTag.path &&
            t.p + room.dice.getD 0 = MAX_LANE) with
        | some i => some i
        | none => toks.findIdx? (fun t => t.t = TokTag.path &&
            t.p + room.dice.getD 0 ≤ MAX_LANE) := by
  unfold botPickMove
  rw [harr]
  dsimp only [Option.getD_some]
  by_cases hd6 : room.dice = some 6
  · rw [if_pos hd6]
    cases hfb : toks.findIdx? (fun t => t.t = TokTag.base) with
    | none =>
        have hnc : ¬(canLeaveBase room color = true ∧
            (none : Option Nat).isSome = true) := by
          rintro ⟨-, hsome⟩
          cases hsome
        rw [if_neg hnc]
    | some k =>
        dsimp only
        by_cases hcl : canLeaveBase room color = true
        · rw [if_pos hcl, if_pos ⟨hcl, rfl⟩]
        · have hnc : ¬(canLeaveBase room color = true ∧
              (some k : Option Nat).isSome = true) := fun h => hcl h.1
          rw [if_neg hcl, if_neg hnc]
  · have hnc : ¬(canLeaveBase room color = true ∧
        (toks.findIdx? (fun t => t.t = TokTag.base)).isSome = true) :=
      fun h => hd6 (canLeaveBase_dice room color h.1)
    rw [if_neg hd6, if_neg hnc]

def wRoomC8 : Room :=
  { status := Status.playing
    players := [⟨1, Color.red, false⟩]
    tokens := fun c => if c = Color.red then
        some [⟨TokTag.path, 1⟩, ⟨TokTag.path, 10⟩, ⟨TokTag.base, 0⟩, ⟨TokTag.base, 0⟩]
      else none
    turnIdx := 0
    dice := some 2
    lastRolls := fun _ => none }

/-- C8 counterexample: die 2, red tokens at steps 1 and 10 — both legal,
neither finishing, no die 6 — yet the bot returns index 0, the first
legal token in index order, not index 1, the legal token with the
greatest current step that the claim prescribes. -/
theorem claim_C8_counterexample :
    botPickMove wRoomC8 Color.red = some 0 ∧
    ((wRoomC8.tokens Color.red).getD []).get? 0 = some ⟨TokTag.path, 1⟩ ∧
    ((wRoomC8.tokens Color.red).getD []).get? 1 = some ⟨TokTag.path, 10⟩ ∧
    wRoomC8.dice = some 2 ∧
    1 + 2 ≤ MAX_LANE ∧ 10 + 2 ≤ MAX_LANE ∧
    ¬(1 + 2 = MAX_LANE) ∧ ¬(10 + 2 = MAX_LANE) ∧ (0 : Nat) ≠ 1 := by
  decide

/-- C8 (amended): the bot decision returns the lowest-index Base token
when the die is 6 and entry is legal; otherwise the lowest index of a
path token landing exactly on `MAX_LANE`; otherwise the lowest index of a
legal path token — the first legal in index order, not the one with the
greatest current step; and none exactly when no legal move exists. -/
theorem claim_C8_amended_bot (room : Room) (color : Color) (toks : List Token)
    (harr : room.tokens color = some toks) :
    (botPickMove room color = none ↔
      ¬∃ tok ∈ toks, ((tok.t = TokTag.base ∧ canLeaveBase room color = true) ∨
        (tok.t = TokTag.path && tok.p + room.dice.getD 0 ≤ MAX_LANE) = true)) ∧
    ((canLeaveBase room color = true ∧ ∃ tok ∈ toks, tok.t = TokTag.base) →
      ∃ i, botPickMove room color = some i ∧
        leastIdx (fun t => t.t = TokTag.base) toks i) ∧
    (¬(canLeaveBase room color = true ∧ ∃ tok ∈ toks, tok.t = TokTag.base) →
      ((∃ tok ∈ toks, (tok.t = TokTag.path &&
          tok.p + room.dice.getD 0 = MAX_LANE) = true) →
        ∃ i, botPickMove room color = some i ∧
          leastIdx (fun t => t.t = TokTag.path &&
            t.p + room.dice.getD 0 = MAX_LANE) toks i) ∧
      ((¬∃ tok ∈ toks, (tok.t = TokTag.path &&
          tok.p + room.dice.getD 0 = MAX_LANE) = true) →
        ((∃ tok ∈ toks, (tok.t = TokTag.path &&
            tok.p + room.dice.getD 0 ≤ MAX_LANE) = true) →
          ∃ i, botPickMove room color = some i ∧
            leastIdx (fun t => t.t = TokTag.path &&
              t.p + room.dice.getD 0 ≤ MAX_LANE) toks i))) := by
  rw [botPickMove_cases room color toks harr]
  have hbase_iff : (toks.findIdx? (fun t => t.t = TokTag.base)).isSome = true ↔
      ∃ tok ∈ toks, tok.t = TokTag.base := by
    rw [List.findIdx?_isSome, List.any_eq_true]
    simp
  by_cases hc : canLeaveBase room color = true ∧
      (toks.findIdx? (fun t => t.t = TokTag.base)).isSome = true
  · rw [if_pos hc]
    obtain ⟨hcl, hsome⟩ := hc
    obtain ⟨k, hk⟩ := Option.isSome_iff_exists.mp hsome
    refine ⟨?_, ?_, ?_⟩
    · rw [hk]
      constructor
      · intro h
        cases h
      · intro hno
        exfalso
        apply hno
        obtain ⟨tok, htok, hb⟩ := hbase_iff.mp hsome
        exact ⟨tok, htok, Or.inl ⟨hb, hcl⟩⟩
    · intro h2
      exact ⟨k, hk, (findIdx?_leastIdx _ toks k).mp hk⟩
    · intro hno
      exact absurd ⟨hcl, hbase_iff.mp hsome⟩ hno
  · rw [if_neg hc]
    have hnb : ¬(canLeaveBase room color = true ∧
        ∃ tok ∈ toks, tok.t = TokTag.base) := by
      rintro ⟨h1, h2⟩
      exact hc ⟨h1, hbase_iff.mpr h2⟩
    refine ⟨?_, fun h => absurd h hnb, fun h2 => ⟨?_, ?_⟩⟩
    · cases hfin : toks.findIdx? (fun t => t.t = TokTag.path &&
          t.p + room.dice.getD 0 = MAX_LANE) with
      | some i =>
          dsimp only
          constructor
          · intro h
            cases h
          · intro hno
            exfalso
            apply hno
            rw [findIdx?_leastIdx] at hfin
            obtain ⟨hlt, hp, h3⟩ := hfin
            refine ⟨toks.get ⟨i, hlt⟩, List.get_mem toks _ _, Or.inr ?_⟩
            rw [Bool.and_eq_true] at hp ⊢
            refine ⟨hp.1, ?_⟩
            simp only [decide_eq_true_eq] at hp ⊢
            exact Nat.le_of_eq hp.2
      | none =>
          dsimp only
          rw [List.findIdx?_eq_none_iff]
          constructor
          · intro hall
            rintro ⟨tok, htok, hcase⟩
            rcases hcase with ⟨hb, hcl⟩ | hleg
            · exact hnb ⟨hcl, tok, htok, hb⟩
            · have h4 := hall tok htok
              rw [hleg] at h4
              cases h4
          · intro hno tok htok
            by_contra hcon
            apply hno
            refine ⟨tok, htok, Or.inr ?_⟩
            simpa using hcon
    · rintro ⟨tok, htok, hfin⟩
      cases hf : toks.findIdx? (fun t => t.t = TokTag.path &&
          t.p + room.dice.getD 0 = MAX_LANE) with
      | none =>
          exfalso
          rw [List.findIdx?_eq_none_iff] at hf
          have h4 := hf tok htok
          rw [hfin] at h4
          cases h4
      | some i =>
          exact ⟨i, rfl, (findIdx?_leastIdx _ toks i).mp hf⟩
    · intro hnofin
      rintro ⟨tok, htok, hleg⟩
      have hf : toks.findIdx? (fun t => t.t = TokTag.path &&
          t.p + room.dice.getD 0 = MAX_LANE) = none := by
        cases hf : toks.findIdx? (fun t => t.t = TokTag.path &&
            t.p + room.dice.getD 0 = MAX_LANE) with
        | none => rfl
        | some i =>
            exfalso
            rw [findIdx?_leastIdx] at hf
            obtain ⟨hlt, hp, h3⟩ := hf
            exact hnofin ⟨toks.get ⟨i, hlt⟩, List.get_mem toks _ _, hp⟩
      rw [hf]
      cases hl : toks.findIdx? (fun t => t.t = TokTag.path &&
          t.p + room.dice.getD 0 ≤ MAX_LANE) with
      | none =>
          exfalso
          rw [List.findIdx?_eq_none_iff] at hl
          have h4 := hl tok htok
          rw [hleg] at h4
          cases h4
      | some i =>
          exact ⟨i, rfl, (findIdx?_leastIdx _ toks i).mp hl⟩

theorem claim_C8_amended_bot_witness :
    ∃ i, botPickMove wRoomC8 Color.red = some i ∧
      leastIdx (fun t => t.t = TokTag.path &&
        t.p + wRoomC8.dice.getD 0 ≤ MAX_LANE)
        ((wRoomC8.tokens Color.red).getD []) i := by
  have harr : wRoomC8.tokens Color.red =
      some [⟨TokTag.path, 1⟩, ⟨TokTag.path, 10⟩, ⟨TokTag.base, 0⟩,
        ⟨TokTag.base, 0⟩] := by decide
  have h := claim_C8_amended_bot wRoomC8 Color.red
    [⟨TokTag.path, 1⟩, ⟨TokTag.path, 10⟩, ⟨TokTag.base, 0⟩, ⟨TokTag.base, 0⟩] harr
  have h2 := h.2.2 (by decide)
  have h3 := h2.2 (by decide)
  exact h3 ⟨⟨TokTag.path, 1⟩, by decide, by decide⟩

/-- The seat that joins first in the concrete scenarios below. -/
def p1 : Player := ⟨1, Color.red, false⟩

/-- Three humans join a fresh room: the session auto-starts. -/
def R3 : Room := (join (join (join newRoom 1).1 2).1 3).1

/-- The first seat then rolls a 6. -/
def R4 : Room := (doRoll R3 p1 6).1

/-- C6 counterexample: with a die already pending (a 6 just rolled), a
second Roll is NOT answered with any error: `doRoll` returns the session
unchanged and sends no message at all — there is no AlreadyRolled report
to the originating sender anywhere in the code. -/
theorem claim_C6_counterexample :
    R4.dice = some 6 ∧
    doRoll R4 p1 5 = (R4, []) ∧
    (doRoll R4 p1 5).2 = [] := by
  refine ⟨by decide, rfl, rfl⟩

/-- C6 (amended): a Roll while a die is pending is silently ignored — the
session state is unchanged and no message (in particular no error) is
sent to anyone; the turn holder`s subsequent Move still succeeds
normally, as the concrete scenario shows: after the ignored re-roll the
holder of the pending 6 moves token 0 out of base to path step 0, keeps
the turn (extra turn) and the die is cleared. -/
theorem claim_C6_silent_reroll (room : Room) (player : Player) (roll d : Nat)
    (hd : room.dice = some d) :
    doRoll room player roll = (room, []) ∧
    (doMove R4 p1 0).1.dice = none ∧
    (doMove R4 p1 0).1.turnIdx = 0 ∧
    ((doMove R4 p1 0).1.tokens Color.red).bind (fun a => a.get? 0) =
      some ⟨TokTag.path, 0⟩ := by
  refine ⟨?_, by decide, by decide, by decide⟩
  unfold doRoll
  by_cases h1 : room.status ≠ Status.playing
  · rw [if_pos h1]
  · rw [if_neg h1]
    by_cases h2 : (room.players.get? room.turnIdx).map Player.id ≠ some player.id
    · rw [if_pos h2]
    · rw [if_neg h2, if_pos (show room.dice ≠ none by simp [hd])]

theorem claim_C6_silent_reroll_witness :
    doRoll R4 p1 5 = (R4, []) :=
  (claim_C6_silent_reroll R4 p1 5 6 (by decide)).1

/-- C7 counterexample: a Playing session of 3 seats loses one seat; the
remaining seat count 2 is below the starting minimum of 3, yet the
status stays Playing — it never reverts to Waiting. -/
theorem claim_C7_counterexample :
    R3.status = Status.playing ∧
    R3.players.length = 3 ∧
    (handleClose R3 1).map Room.status = some Status.playing ∧
    (handleClose R3 1).map (fun r => r.players.length) = some 2 := by
  refine ⟨by decide, by decide, by decide, by decide⟩

/-- C7 (amended): when a seat leaves a Playing session and the room stays
nonempty, the status remains Playing no matter how few seats remain (so
Playing does not imply the seat count stays within the starting
[3,3] bound); the pending die is cleared and the turn index is reset to 0
exactly when it no longer addresses a seat. -/
theorem claim_C7_leave (room : Room) (pid : Nat) (room1 : Room)
    (hst : room.status = Status.playing)
    (hcl : handleClose room pid = some room1) :
    room1.status = Status.playing ∧
    room1.dice = none ∧
    room1.players = removeFirstById room.players pid ∧
    room1.turnIdx =
      (if (removeFirstById room.players pid).length ≤ room.turnIdx then 0
       else room.turnIdx) := by
  unfold handleClose at hcl
  dsimp only at hcl
  by_cases hemp : (removeFirstById room.players pid).isEmpty = true
  · rw [if_pos hemp] at hcl
    cases hcl
  · rw [if_neg hemp, if_pos hst] at hcl
    cases hcl
    exact ⟨hst, rfl, rfl, rfl⟩

theorem claim_C7_leave_witness :
    (handleClose R3 1).map Room.status = some Status.playing ∧
    (handleClose R3 1).map Room.dice = some none := by
  have hsome : (handleClose R3 1).isSome = true := by decide
  obtain ⟨room1, hcl⟩ := Option.isSome_iff_exists.mp hsome
  have h := claim_C7_leave R3 1 room1 (by decide) hcl
  rw [hcl]
  simp [h.1, h.2.1]

/-! ### Reachable sessions and the per-color token invariant -/

/-- One externally triggered transition of a session: a join, an
addBot/removeBot request, a roll (by a seated player, as the handler
looks the player up in the seat list), a move, a disconnect that leaves
the room nonempty, or the auto-pass timer firing. -/
inductive Step : Room → Room → Prop
  | joinStep (room : Room) (pid : Nat) : Step room (join room pid).1
  | addBotStep (room : Room) (pid : Nat) : Step room (addBot room pid)
  | removeBotStep (room : Room) : Step room (removeBot room)
  | rollStep (room : Room) (player : Player) (r : Nat)
      (hp : player ∈ room.players) : Step room (doRoll room player r).1
  | moveStep (room : Room) (player : Player) (idx : Nat)
      (hp : player ∈ room.players) : Step room (doMove room player idx).1
  | closeStep (room room1 : Room) (pid : Nat)
      (h : handleClose room pid = some room1) : Step room room1
  | autopassStep (room : Room) : Step room (nextTurn room false)

/-- Sessions reachable from a fresh room through the handlers. -/
inductive Reachable : Room → Prop
  | init : Reachable newRoom
  | step {room room1 : Room} : Reachable room → Step room room1 →
      Reachable room1

/-- Every color owns a 4-token array. -/
def TokensOk (room : Room) : Prop :=
  ∀ c : Color, ∃ arr, room.tokens c = some arr ∧ arr.length = 4

/-- The maintained invariant: seat colors are pairwise distinct, and
outside Waiting every color owns a 4-token array. -/
def Inv (room : Room) : Prop :=
  (room.players.map Player.color).Nodup ∧
  (room.status ≠ Status.waiting → TokensOk room)

theorem pickColor_not_taken (taken : List Color) (c : Color)
    (h : pickColor taken = some c) : c ∉ taken := by
  have hp := List.find?_some h
  simpa using hp

theorem all_colors_of_three (l : List Color) (hlen : l.length = 3)
    (hnd : l.Nodup) : ∀ c : Color, c ∈ l := by
  intro c
  have hcard : l.toFinset.card = 3 := by
    rw [List.toFinset_card_of_nodup hnd, hlen]
  have huniv : l.toFinset = Finset.univ :=
    Finset.eq_univ_of_card _ (by rw [hcard]; rfl)
  have hmem : c ∈ l.toFinset := by
    rw [huniv]
    exact Finset.mem_univ c
  simpa using hmem

theorem startGame_players (room : Room) :
    (startGame room).players = room.players := rfl

theorem startGame_tokens (room : Room) (c : Color)
    (h : ∃ p ∈ room.players, p.color = c) :
    (startGame room).tokens c = some freshTokens := by
  unfold startGame ensureTokens
  dsimp only
  rw [if_pos]
  rw [List.find?_isSome]
  obtain ⟨p, hp, hpc⟩ := h
  exact ⟨p, hp, by simp [hpc]⟩

theorem startGame_tokensOk (room : Room)
    (h : ∀ c : Color, ∃ p ∈ room.players, p.color = c) :
    TokensOk (startGame room) := by
  intro c
  exact ⟨freshTokens, startGame_tokens room c (h c), rfl⟩

theorem nodup_push (room : Room) (pl : Player)
    (hnd : (room.players.map Player.color).Nodup)
    (hnotin : pl.color ∉ room.players.map Player.color) :
    (((room.players ++ [pl]).map Player.color)).Nodup := by
  rw [List.map_append]
  rw [List.nodup_append]
  refine ⟨hnd, by simp, ?_⟩
  intro x hx hmem
  simp only [List.map_cons, List.map_nil, List.mem_singleton] at hmem
  subst hmem
  exact hnotin hx

theorem inv_join (room : Room) (pid : Nat) (h : Inv room) :
    Inv (join room pid).1 := by
  obtain ⟨hnd, htok⟩ := h
  unfold join
  cases hpc : pickColor (room.players.map Player.color) with
  | none => exact ⟨hnd, htok⟩
  | some color =>
      dsimp only
      have hnotin : color ∉ room.players.map Player.color :=
        pickColor_not_taken _ _ hpc
      have hnd1 := nodup_push room ⟨pid, color, false⟩ hnd hnotin
      by_cases hcond : (room.players ++ [(⟨pid, color, false⟩ : Player)]).length = 3 ∧
          room.status = Status.waiting
      · rw [if_pos hcond]
        refine ⟨hnd1, fun _ => ?_⟩
        apply startGame_tokensOk
        intro c
        have hc : c ∈ (room.players ++ [(⟨pid, color, false⟩ : Player)]).map Player.color :=
          all_colors_of_three _ (by rw [List.length_map]; exact hcond.1) hnd1 c
        obtain ⟨p, hp, hpc2⟩ := List.mem_map.mp hc
        exact ⟨p, hp, hpc2⟩
      · rw [if_neg hcond]
        exact ⟨hnd1, htok⟩

theorem inv_addBot (room : Room) (pid : Nat) (h : Inv room) :
    Inv (addBot room pid) := by
  obtain ⟨hnd, htok⟩ := h
  unfold addBot
  by_cases hg : 3 ≤ room.players.length ∨ room.status ≠ Status.waiting
  · rw [if_pos hg]
    exact ⟨hnd, htok⟩
  · rw [if_neg hg]
    cases hpc : pickColor (room.players.map Player.color) with
    | none => exact ⟨hnd, htok⟩
    | some color =>
        dsimp only
        have hnotin : color ∉ room.players.map Player.color :=
          pickColor_not_taken _ _ hpc
        have hnd1 := nodup_push room ⟨pid, color, true⟩ hnd hnotin
        by_cases hcond : (room.players ++ [(⟨pid, color, true⟩ : Player)]).length = 3 ∧
            room.status = Status.waiting
        · rw [if_pos hcond]
          refine ⟨hnd1, fun _ => ?_⟩
          apply startGame_tokensOk
          intro c
          have hc : c ∈ (room.players ++ [(⟨pid, color, true⟩ : Player)]).map Player.color :=
            all_colors_of_three _ (by rw [List.length_map]; exact hcond.1) hnd1 c
          obtain ⟨p, hp, hpc2⟩ := List.mem_map.mp hc
          exact ⟨p, hp, hpc2⟩
        · rw [if_neg hcond]
          exact ⟨hnd1, htok⟩

theorem removeLastBot_sublist (l : List Player) :
    List.Sublist (removeLastBot l) l := by
  induction l with
  | nil => exact List.Sublist.refl []
  | cons p rest ih =>
      unfold removeLastBot
      by_cases hb : rest.any (fun q => q.bot) = true
      · rw [if_pos hb]
        exact List.Sublist.cons₂ p ih
      · rw [if_neg hb]
        by_cases hp : p.bot = true
        · rw [if_pos hp]
          exact List.sublist_cons_self p rest
        · rw [if_neg hp]

theorem inv_removeBot (room : Room) (h : Inv room) : Inv (removeBot room) := by
  obtain ⟨hnd, htok⟩ := h
  unfold removeBot
  by_cases hg : room.status ≠ Status.waiting
  · rw [if_pos hg]
    exact ⟨hnd, htok⟩
  · rw [if_neg hg]
    refine ⟨?_, htok⟩
    exact hnd.sublist ((removeLastBot_sublist room.players).map Player.color)

theorem doRoll_fields (room : Room) (player : Player) (r : Nat) :
    (doRoll room player r).1.status = room.status ∧
    (doRoll room player r).1.players = room.players ∧
    (doRoll room player r).1.tokens = room.tokens := by
  unfold doRoll
  by_cases h1 : room.status ≠ Status.playing
  · rw [if_pos h1]
    exact ⟨rfl, rfl, rfl⟩
  · rw [if_neg h1]
    by_cases h2 : (room.players.get? room.turnIdx).map Player.id ≠ some player.id
    · rw [if_pos h2]
      exact ⟨rfl, rfl, rfl⟩
    · rw [if_neg h2]
      by_cases h3 : room.dice ≠ none
      · rw [if_pos h3]
        exact ⟨rfl, rfl, rfl⟩
      · rw [if_neg h3]
        exact ⟨rfl, rfl, rfl⟩

theorem inv_doRoll (room : Room) (player : Player) (r : Nat) (h : Inv room) :
    Inv (doRoll room player r).1 := by
  obtain ⟨hf1, hf2, hf3⟩ := doRoll_fields room player r
  obtain ⟨hnd, htok⟩ := h
  refine ⟨by rw [hf2]; exact hnd, ?_⟩
  intro hw
  rw [hf1] at hw
  intro c
  obtain ⟨arr, harr, hlen⟩ := htok hw c
  exact ⟨arr, by rw [hf3]; exact harr, hlen⟩

theorem doMove_players (room : Room) (player : Player) (idx : Nat) :
    (doMove room player idx).1.players = room.players := by
  unfold doMove
  by_cases h1 : room.status ≠ Status.playing
  · rw [if_pos h1]
  · rw [if_neg h1]
    by_cases h2 : (room.players.get? room.turnIdx).map Player.id ≠ some player.id
    · rw [if_pos h2]
    · rw [if_neg h2]
      by_cases h3 : room.dice = none
      · rw [if_pos h3]
      · rw [if_neg h3]
        cases hmv : tryMove room player.color idx with
        | none => rfl
        | some room1 =>
            dsimp only
            have hpl := (tryMove_fields room player.color idx room1 hmv).2.1
            unfold checkWin
            cases findWinner room1 with
            | none => exact hpl
            | some w => exact hpl

theorem doMove_status (room : Room) (player : Player) (idx : Nat) :
    (doMove room player idx).1.status = room.status ∨
    (doMove room player idx).1.status = Status.finished := by
  unfold doMove
  by_cases h1 : room.status ≠ Status.playing
  · rw [if_pos h1]
    exact Or.inl rfl
  · rw [if_neg h1]
    by_cases h2 : (room.players.get? room.turnIdx).map Player.id ≠ some player.id
    · rw [if_pos h2]
      exact Or.inl rfl
    · rw [if_neg h2]
      by_cases h3 : room.dice = none
      · rw [if_pos h3]
        exact Or.inl rfl
      · rw [if_neg h3]
        cases hmv : tryMove room player.color idx with
        | none => exact Or.inl rfl
        | some room1 =>
            dsimp only
            have hst := (tryMove_fields room player.color idx room1 hmv).1
            unfold checkWin
            cases findWinner room1 with
            | none => exact Or.inl hst
            | some w => exact Or.inr rfl

theorem inv_doMove (room : Room) (player : Player) (idx : Nat) (h : Inv room) :
    Inv (doMove room player idx).1 := by
  obtain ⟨hnd, htok⟩ := h
  refine ⟨by rw [doMove_players]; exact hnd, ?_⟩
  intro hw c
  have hlen := doMove_length room player idx c
  have htokok : TokensOk room := by
    rcases doMove_status room player idx with hs | hs
    · apply htok
      rw [hs] at hw
      exact hw
    · apply htok
      -- a finished result only arises from a playing room
      intro hwait
      unfold doMove at hs
      rw [if_pos (by rw [hwait]; intro hco; cases hco)] at hs
      rw [hwait] at hs
      cases hs
  obtain ⟨arr, harr, hl4⟩ := htokok c
  rw [harr] at hlen
  cases hres : (doMove room player idx).1.tokens c with
  | none =>
      rw [hres] at hlen
      cases hlen
  | some arr2 =>
      rw [hres] at hlen
      simp only [Option.map_some'] at hlen
      injection hlen with hlen
      exact ⟨arr2, rfl, by rw [hlen, hl4]⟩

theorem removeFirstById_sublist (l : List Player) (pid : Nat) :
    List.Sublist (removeFirstById l pid) l := by
  induction l with
  | nil => exact List.Sublist.refl []
  | cons p rest ih =>
      unfold removeFirstById
      by_cases hp : p.id = pid
      · rw [if_pos hp]
        exact List.sublist_cons_self p rest
      · rw [if_neg hp]
        exact List.Sublist.cons₂ p ih

theorem inv_handleClose (room room1 : Room) (pid : Nat)
    (hcl : handleClose room pid = some room1) (h : Inv room) : Inv room1 := by
  obtain ⟨hnd, htok⟩ := h
  have hsub : List.Sublist (removeFirstById room.players pid) room.players :=
    removeFirstById_sublist room.players pid
  unfold handleClose at hcl
  dsimp only at hcl
  by_cases hemp : (removeFirstById room.players pid).isEmpty = true
  · rw [if_pos hemp] at hcl
    cases hcl
  · rw [if_neg hemp] at hcl
    by_cases hpl : room.status = Status.playing
    · rw [if_pos hpl] at hcl
      cases hcl
      refine ⟨hnd.sublist (hsub.map Player.color), ?_⟩
      intro hw c
      exact htok (by rw [hpl]; intro hco; cases hco) c
    · rw [if_neg hpl] at hcl
      cases hcl
      exact ⟨hnd.sublist (hsub.map Player.color), htok⟩

theorem inv_nextTurn (room : Room) (b : Bool) (h : Inv room) :
    Inv (nextTurn room b) := by
  obtain ⟨hnd, htok⟩ := h
  exact ⟨hnd, htok⟩

/-- Every reachable session satisfies the invariant. -/
theorem reachable_inv (room : Room) (h : Reachable room) : Inv room := by
  induction h with
  | init => exact ⟨List.nodup_nil, fun hw => absurd rfl hw⟩
  | step hr hs ih =>
      cases hs with
      | joinStep pid => exact inv_join _ pid ih
      | addBotStep pid => exact inv_addBot _ pid ih
      | removeBotStep => exact inv_removeBot _ ih
      | rollStep player r hp => exact inv_doRoll _ player r ih
      | moveStep player idx hp => exact inv_doMove _ player idx ih
      | closeStep room1 pid hcl => exact inv_handleClose _ _ pid hcl ih
      | autopassStep => exact inv_nextTurn _ false ih

/-- C9 counterexample: right after the first Join the session is
reachable, red is seated, the status is Waiting — and red has NO token
array at all; token arrays are only created when the game starts, so the
claimed always-4-tokens invariant fails in Waiting. -/
theorem claim_C9_counterexample :
    Reachable (join newRoom 1).1 ∧
    (join newRoom 1).1.status = Status.waiting ∧
    (join newRoom 1).1.players.map Player.color = [Color.red] ∧
    (join newRoom 1).1.tokens Color.red = none :=
  ⟨Reachable.step Reachable.init (Step.joinStep newRoom 1),
    by decide, by decide, by decide⟩

/-- C9 (amended): in every reachable session whose status is Playing or
Finished, every color — in particular every seated color — holds a token
array of exactly 4 tokens, and this is preserved by Join, AddBot,
RemoveBot, Roll, Move and Leave; in Waiting the token arrays are created
only at game start, not at Join. -/
theorem claim_C9_tokens (room : Room) (h : Reachable room)
    (hw : room.status ≠ Status.waiting) :
    ∀ p ∈ room.players, ∃ arr, room.tokens p.color = some arr ∧
      arr.length = 4 := by
  intro p hp
  exact (reachable_inv room h).2 hw p.color

theorem claim_C9_tokens_witness :
    ∃ arr, R3.tokens Color.red = some arr ∧ arr.length = 4 := by
  have hreach : Reachable R3 :=
    Reachable.step (Reachable.step (Reachable.step Reachable.init
      (Step.joinStep newRoom 1)) (Step.joinStep (join newRoom 1).1 2))
      (Step.joinStep (join (join newRoom 1).1 2).1 3)
  exact claim_C9_tokens R3 hreach (by decide) p1 (by decide)

end Ludo
